import Mathlib

/-!
Shallow embedding of `disposcraper.py` (Carpe-Omnia/showProducts).

The scraper's pure logic — per-card field extraction (`scrape_page_products`),
name de-duplication (`unique_products`), the scroll-stabilisation loop
(`scroll_to_load_all`) and the per-category error isolation of `main` — is
translated into executable Lean definitions.  Browser interaction is abstracted
away: a rendered card is a record of the texts and attributes the Python code
reads from it, and the page-height oracle of the scroll loop is a function
from measurement index to height.
-/

namespace Showp

/-- Python `str.strip` whitespace class restricted to ASCII, which is all the
scraper's inputs use. -/
def pyIsSpace (c : Char) : Bool :=
  c = ' ' || c = '\t' || c = '\n' || c = '\r' || c = '\x0b' || c = '\x0c'

/-- Python `str.strip()` on the character list. -/
def stripChars (l : List Char) : List Char :=
  ((l.dropWhile pyIsSpace).reverse.dropWhile pyIsSpace).reverse

/-- Python `str.strip()`. -/
def pyStrip (s : String) : String := ⟨stripChars s.data⟩

/-- Python `str.lower()` (ASCII case fold, matching the scraper's inputs). -/
def lowerStr (s : String) : String := ⟨s.data.map Char.toLower⟩

/-- Python `a.startswith(b)`. -/
def pyStartsWith (s pre : String) : Bool := pre.data.isPrefixOf s.data

/-- Greedy match of the regex fragment `\d+\.?\d*` at the head of `l`:
returns the matched characters and the rest, or `none` when `l` does not
begin with a digit. -/
def numTok (l : List Char) : Option (List Char × List Char) :=
  let d := l.takeWhile Char.isDigit
  let r := l.dropWhile Char.isDigit
  if d = [] then none
  else
    match r with
    | '.' :: r2 => some (d ++ '.' :: r2.takeWhile Char.isDigit, r2.dropWhile Char.isDigit)
    | _ => some (d, r)

/-- Leftmost match of `re.search(r"\$(\d+\.?\d*)", s)`, returning group 1
(the digits after the dollar sign), as used on `combined_source`
(disposcraper.py line 84). -/
def searchDollarNum : List Char → Option (List Char)
  | [] => none
  | c :: rest =>
    if c = '$' then
      match numTok rest with
      | some (m, _) => some m
      | none => searchDollarNum rest
    else searchDollarNum rest

/-- Leftmost match of `re.search(r"\$\d+\.?\d*", s)`, returning the full
matched text (group 0), as used in the whole-card fallback
(disposcraper.py line 106). -/
def searchDollarFull : List Char → Option (List Char)
  | [] => none
  | c :: rest =>
    if c = '$' then
      match numTok rest with
      | some (m, _) => some ('$' :: m)
      | none => searchDollarFull rest
    else searchDollarFull rest

/-- Leftmost match of `re.search(r"price-(\d+\.?\d*)", testid)`, returning
group 1 (disposcraper.py line 88). -/
def searchPriceDash : List Char → Option (List Char)
  | [] => none
  | c :: rest =>
    if "price-".data.isPrefixOf (c :: rest) then
      match numTok ((c :: rest).drop 6) with
      | some (m, _) => some m
      | none => searchPriceDash rest
    else searchPriceDash rest

/-- Greedy match of `\d+\.?\d*%` at the head of `l` (the percentage group of
the THC regex): the number token must be immediately followed by `%`. -/
def pctTok (l : List Char) : Option (List Char) :=
  match numTok l with
  | some (m, r) =>
    match r with
    | '%' :: _ => some (m ++ ['%'])
    | _ => none
  | none => none

/-- Leftmost match of `re.search(r"(THCa?|CBD)\s*(\d+\.?\d*%)", s, re.IGNORECASE)`,
returning group 2 — the percentage — exactly as line 115 of disposcraper.py
consumes the match.  The `a?` is greedy; when the character after `THC` is an
`a` the variant without it cannot succeed either, so no backtracking over the
alternation is needed. -/
def thcScan : List Char → Option (List Char)
  | [] => none
  | c :: rest =>
    let l := c :: rest
    let lw := l.map Char.toLower
    let hd : Option (List Char) :=
      if "thc".data.isPrefixOf lw then
        if (lw.drop 3).head? = some 'a' then some (l.drop 4) else some (l.drop 3)
      else if "cbd".data.isPrefixOf lw then some (l.drop 3)
      else none
    match hd with
    | some r1 =>
      match pctTok (r1.dropWhile pyIsSpace) with
      | some g2 => some g2
      | none => thcScan rest
    | none => thcScan rest

/-- Price standardisation of disposcraper.py lines 93–97: split the captured
value on the first dot, truncate the fraction to two characters and right-pad
it with zeros; a value without a dot gets `.00` appended. -/
def formatVal (val : List Char) : String :=
  if val.contains '.' then
    let p0 := val.takeWhile (fun c => c ≠ '.')
    let p1 := (val.dropWhile (fun c => c ≠ '.')).drop 1
    let fr := p1.take 2
    ⟨'$' :: (p0 ++ '.' :: (fr ++ List.replicate (2 - fr.length) '0'))⟩
  else ⟨'$' :: (val ++ ['.', '0', '0'])⟩

/-- One element matched by `'[data-testid*="price"], [data-testid*="discount"]'`:
its visible text and its `data-testid` attribute (empty when absent, matching
`or ""`). -/
structure PriceEl where
  text : String
  testid : String
deriving DecidableEq

/-- Per-element price recovery (disposcraper.py lines 76–88): search the
stripped text joined with the test-id for a dollar amount; failing that,
search the test-id alone for a `price-` numeric suffix. -/
def elMatch (el : PriceEl) : Option (List Char) :=
  let text := pyStrip el.text
  let combined := text.data ++ ' ' :: el.testid.data
  match searchDollarNum combined with
  | some m => some m
  | none => searchPriceDash el.testid.data

/-- Strategy-A loop over the price-tagged elements (disposcraper.py
lines 74–101), carrying the running `price` string; stops early with
`found = true` at the first element whose standardised value is not the
string `"$0.00"`. -/
def priceLoop : String → List PriceEl → String × Bool
  | price, [] => (price, false)
  | price, el :: rest =>
    match elMatch el with
    | some val =>
      let p := formatVal val
      if p ≠ "$0.00" then (p, true) else priceLoop p rest
    | none => priceLoop price rest

/-- One rendered product card, holding exactly the data the Python code reads:
optional brand/name element texts, the price-tagged elements, the optional
image element's optional `src`, and the card's full `inner_text`. -/
structure Card where
  brand_el : Option String
  name_el : Option String
  price_elements : List PriceEl
  img_el : Option (Option String)
  full_text : String
deriving DecidableEq

/-- Whole-card price fallback (disposcraper.py lines 104–109): first dollar
amount in the card's full text, with `.00` appended when the match has no
dot. -/
def fallbackPrice (fullText : String) : Option String :=
  match searchDollarFull fullText.data with
  | some m => some (if m.contains '.' then ⟨m⟩ else ⟨m ++ ['.', '0', '0']⟩)
  | none => none

/-- Complete price recovery for one card (disposcraper.py lines 67–109). -/
def extractPrice (card : Card) : String :=
  let st := priceLoop "$0.00" card.price_elements
  if st.2 then st.1
  else
    match fallbackPrice card.full_text with
    | some q => q
    | none => st.1

/-- Metadata recovery (disposcraper.py lines 111–115 and 125): the percentage
group of the first THC/THCa/CBD match, wrapped as `THC: ...`, with `N/A` when
nothing matches. -/
def extractMeta (card : Card) : String :=
  match thcScan card.full_text.data with
  | some g2 => "THC: " ++ ⟨g2⟩
  | none => "THC: N/A"

/-- Brand as resolved by lines 54–55: stripped element text, or empty. -/
def brandOf (card : Card) : String :=
  match card.brand_el with
  | some t => pyStrip t
  | none => ""

/-- Name as resolved by lines 58–59: stripped element text, or the sentinel. -/
def nameOf (card : Card) : String :=
  match card.name_el with
  | some t => pyStrip t
  | none => "Unknown"

/-- Output record with the five fields disposcraper.py emits; `image` is
`Option` because `get_attribute` can return Python `None`. -/
structure Product where
  name : String
  price : String
  meta : String
  category : String
  image : Option String
deriving DecidableEq

/-- Extraction of one card (disposcraper.py lines 51–128): compose the brand
into the name unless already a case-insensitive prefix of it, recover price
and metadata, and drop the card when its name is the `Unknown` sentinel. -/
def scrapeCard (card : Card) (category_label : String) : Option Product :=
  let brand := brandOf card
  let name := nameOf card
  let full_name :=
    if brand ≠ "" && !(pyStartsWith (lowerStr name) (lowerStr brand)) then
      brand ++ " - " ++ name
    else name
  let price := extractPrice card
  let meta := extractMeta card
  let img : Option String :=
    match card.img_el with
    | some src => src
    | none => some ""
  if name ≠ "Unknown" then
    some { name := full_name, price := price, meta := meta,
           category := category_label, image := img }
  else none

/-- Card loop of `scrape_page_products` (disposcraper.py lines 51–132):
extract every card in order, keeping only usable records. -/
def scrape_page_products (cards : List Card) (category_label : String) : List Product :=
  cards.filterMap (fun c => scrapeCard c category_label)

/-- Python-dict insertion: update the value in place when the key is present,
otherwise append the binding. -/
def upsert : List (String × Product) → String → Product → List (String × Product)
  | [], k, v => [(k, v)]
  | (k0, v0) :: rest, k, v =>
    if k0 = k then (k0, v) :: rest else (k0, v0) :: upsert rest k v

/-- Catalog merger of disposcraper.py line 165:
`list({p['name']: p for p in all_products}.values())` — an insertion-ordered
map keyed by name, later records overwriting earlier ones, materialised as
its values. -/
def unique_products (ps : List Product) : List Product :=
  (ps.foldl (fun m p => upsert m p.name p) []).map Prod.snd

/-- Scroll loop body of `scroll_to_load_all` (disposcraper.py lines 31–38)
with the page-height oracle `h` — `h 0` is the initial measurement, `h i`
the one after the `i`-th scroll command.  Returns the number of scroll
commands issued when the loop finishes within `fuel` iterations. -/
def scrollSteps (h : Nat → Nat) : Nat → Nat → Option Nat
  | 0, _ => none
  | fuel + 1, i =>
    if h (i + 1) = h i then some (i + 1)
    else scrollSteps h fuel (i + 1)

/-- Scroll-to-exhaustion loop of disposcraper.py lines 28–38, started from the
initial height measurement. -/
def scroll_to_load_all (h : Nat → Nat) (fuel : Nat) : Option Nat :=
  scrollSteps h fuel 0

/-- Records contributed by one category outcome in `main`: a failing category
contributes nothing (the `except` arm of lines 161–162). -/
def exceptRecords (r : Except String (List Product)) : List Product :=
  match r with
  | Except.ok rs => rs
  | Except.error _ => []

/-- Category loop of `main` (disposcraper.py lines 144–162): each category's
processing (navigate, age gate, readiness wait, scroll, scrape) is the
effectful step `f`; its records extend the accumulator on success and any
exception is caught, leaving the accumulator unchanged. -/
def runCategories (cats : List String) (f : String → Except String (List Product)) :
    List Product :=
  cats.foldl
    (fun acc c =>
      match f c with
      | Except.ok rs => acc ++ rs
      | Except.error _ => acc) []

/-- Canonical price shape of the spec's invariant, the regex
`^\$\d+\.\d{2}$`: a dollar sign, a maximal nonempty digit run, then a dot and
exactly two digits to the end. -/
def matchesCanonical (s : String) : Bool :=
  let rest := s.data.tail
  let r := rest.dropWhile Char.isDigit
  decide (s.data.head? = some '$') && decide (rest.takeWhile Char.isDigit ≠ []) &&
    decide (r.head? = some '.') && decide (r.length = 3) && r.tail.all Char.isDigit

/-- Looser price shape `^\$\d+\.\d*$` that the code actually guarantees:
a dollar sign, a nonempty digit run, a dot, then any number of digits to the
end. -/
def matchesLoose (s : String) : Bool :=
  let rest := s.data.tail
  let r := rest.dropWhile Char.isDigit
  decide (s.data.head? = some '$') && decide (rest.takeWhile Char.isDigit ≠ []) &&
    decide (r.head? = some '.') && r.tail.all Char.isDigit

/-- Shape of a group captured by `\d+\.?\d*`: a nonempty digit run, optionally
followed by a dot and a (possibly empty) digit run. -/
def numShape (m : List Char) : Prop :=
  ∃ d e, d ≠ [] ∧ d.all Char.isDigit = true ∧ e.all Char.isDigit = true ∧
    (m = d ∨ m = d ++ '.' :: e)

/-- Invariant of the merger's accumulator: keys are unique and each binding's
key is its record's name. -/
def goodMap (m : List (String × Product)) : Prop :=
  (m.map Prod.fst).Nodup ∧ ∀ e ∈ m, e.1 = e.2.name

/-- Lookup by key in the merger's accumulator, front to back. -/
def lookupKey (m : List (String × Product)) (n : String) : Option Product :=
  (m.find? (fun e => e.1 == n)).map Prod.snd

/-- Last record carrying the given name — the record a last-seen-wins merge
must keep. -/
def lastNamed (n : String) (ps : List Product) : Option Product :=
  (ps.filter (fun p => p.name == n)).getLast?

/-! ### Concrete fixtures -/

/-- Price element showing an original price of fifty dollars. -/
def originalPriceEl : PriceEl :=
  { text := "$50.00", testid := "product-card-price-original" }

/-- Price element showing a discounted price of forty dollars. -/
def discountPriceEl : PriceEl :=
  { text := "$40.00", testid := "product-card-discount-price" }

/-- Card carrying an original-price element before a discount element. -/
def twoPriceCard : Card :=
  { brand_el := some "Brand", name_el := some "Widget",
    price_elements := [originalPriceEl, discountPriceEl], img_el := none,
    full_text := "Widget $50.00 $40.00" }

/-- Card with no price-tagged elements whose text carries a one-decimal
amount. -/
def oneDecimalCard : Card :=
  { brand_el := none, name_el := some "Widget", price_elements := [],
    img_el := none, full_text := "Deal $45.5 today" }

/-- Card whose only price-tagged element reads zero but whose text has a
price. -/
def zeroElementCard : Card :=
  { brand_el := none, name_el := some "Widget",
    price_elements := [{ text := "$0.00", testid := "discount-badge" }],
    img_el := none, full_text := "sale $12 now" }

/-- Card with a zero-valued price element followed by a thirty-dollar one. -/
def zeroThenThirtyCard : Card :=
  { brand_el := none, name_el := some "Widget",
    price_elements := [{ text := "$0.00", testid := "discount-badge" },
      { text := "$30", testid := "price-tag" }],
    img_el := none, full_text := "Widget" }

/-- Card whose price element has a three-digit fraction. -/
def truncCard : Card :=
  { brand_el := none, name_el := some "Widget",
    price_elements := [{ text := "$45.999", testid := "x-price" }],
    img_el := none, full_text := "" }

/-- Card whose price element has a one-digit fraction. -/
def padCard : Card :=
  { brand_el := none, name_el := some "Widget",
    price_elements := [{ text := "$45.5", testid := "x-price" }],
    img_el := none, full_text := "" }

/-- Card whose price element has no fraction. -/
def wholeCard : Card :=
  { brand_el := none, name_el := some "Widget",
    price_elements := [{ text := "$45", testid := "x-price" }],
    img_el := none, full_text := "" }

/-- Text-only card builder for metadata and name fixtures. -/
def textCard (nm t : String) : Card :=
  { brand_el := none, name_el := some nm, price_elements := [], img_el := none,
    full_text := t }

/-- Card whose name already carries its brand as a prefix. -/
def blackBuddhaCard : Card :=
  { brand_el := some "Black Buddha", name_el := some "Black Buddha - Energy Sativa",
    price_elements := [], img_el := none, full_text := "" }

/-- Card whose name lacks its brand prefix. -/
def kivaCard : Card :=
  { brand_el := some "Kiva", name_el := some "Chocolate Bar",
    price_elements := [], img_el := none, full_text := "" }

/-- Record the extractor emits for `kivaCard` under the EDIBLES label. -/
def kivaProduct : Product :=
  { name := "Kiva - Chocolate Bar", price := "$0.00", meta := "THC: N/A",
    category := "EDIBLES", image := some "" }

/-- Card whose text carries a CBD percentage. -/
def cbdCard : Card := textCard "Gummies" "Kiva Gummies CBD 5% pack"

/-- Card whose text carries only a milligram dosage. -/
def mgCard : Card := textCard "Softgels" "Softgels 100 mg bottle"

/-- Card with no name element at all. -/
def unnamedCard : Card :=
  { brand_el := some "Kiva", name_el := none, price_elements := [],
    img_el := none, full_text := "" }

/-- Height oracle measuring 100 and then 300 forever. -/
def seqHeights : Nat → Nat := fun n => if n = 0 then 100 else 300

/-- Sample merged records for the merger fixtures. -/
def prodA : Product :=
  { name := "Alpha", price := "$1.00", meta := "THC: N/A", category := "FLOWER",
    image := some "" }

/-- Second sample record with a distinct name. -/
def prodB : Product :=
  { name := "Beta", price := "$2.00", meta := "THC: N/A", category := "FLOWER",
    image := some "" }

/-- Record sharing `prodA`'s name with different fields. -/
def prodA2 : Product :=
  { name := "Alpha", price := "$9.00", meta := "THC: 20%",
    category := "VAPORIZERS", image := some "" }

/-- Demo per-category outcome: the pre-rolls category times out, the others
succeed. -/
def demoScrape : String → Except String (List Product) := fun c =>
  if c = "PRE-ROLLS" then Except.error "Timeout 20000ms exceeded"
  else if c = "FLOWER" then Except.ok [prodA, prodB]
  else Except.ok [prodA2]

/-! ### List helpers -/

theorem all_takeWhile (p : Char → Bool) (l : List Char) :
    (l.takeWhile p).all p = true := by
  rw [List.all_eq_true]
  intro x hx
  exact List.mem_takeWhile_imp hx

theorem takeWhile_all_append (p : Char → Bool) (d l : List Char)
    (hd : d.all p = true) : (d ++ l).takeWhile p = d ++ l.takeWhile p := by
  induction d with
  | nil => simp
  | cons c cs ih =>
    simp only [List.all_cons, Bool.and_eq_true] at hd
    simp [List.takeWhile_cons, hd.1, ih hd.2]

theorem dropWhile_all_append (p : Char → Bool) (d l : List Char)
    (hd : d.all p = true) : (d ++ l).dropWhile p = l.dropWhile p := by
  induction d with
  | nil => simp
  | cons c cs ih =>
    simp only [List.all_cons, Bool.and_eq_true] at hd
    simp [List.dropWhile_cons, hd.1, ih hd.2]

theorem digits_ne_dot {d : List Char} (h : d.all Char.isDigit = true) :
    d.all (fun c => c ≠ '.') = true := by
  rw [List.all_eq_true] at h ⊢
  intro x hx
  have hxd := h x hx
  simp only [ne_eq, decide_eq_true_eq]
  intro he
  subst he
  exact absurd hxd (by decide)

theorem digits_not_contains_dot {d : List Char} (h : d.all Char.isDigit = true) :
    d.contains '.' = false := by
  cases hc : d.contains '.' with
  | false => rfl
  | true =>
    exfalso
    have hm : '.' ∈ d := by
      have := List.elem_iff.mp hc
      exact this
    rw [List.all_eq_true] at h
    exact absurd (h _ hm) (by decide)

/-! ### Shape of values recovered by the price regexes -/

theorem numTok_shape {l m r : List Char} (h : numTok l = some (m, r)) :
    numShape m := by
  unfold numTok at h
  by_cases hd : l.takeWhile Char.isDigit = []
  · simp [hd] at h
  · simp only [hd, if_false] at h
    split at h
    · rename_i r2 heq
      injection h with h1
      injection h1 with hm hr
      exact ⟨l.takeWhile Char.isDigit, r2.takeWhile Char.isDigit, hd,
        all_takeWhile _ _, all_takeWhile _ _, Or.inr hm.symm⟩
    · injection h with h1
      injection h1 with hm hr
      exact ⟨l.takeWhile Char.isDigit, [], hd, all_takeWhile _ _, by simp,
        Or.inl hm.symm⟩

theorem searchDollarNum_shape : ∀ {l m : List Char},
    searchDollarNum l = some m → numShape m := by
  intro l
  induction l with
  | nil => intro m h; simp [searchDollarNum] at h
  | cons c rest ih =>
    intro m h
    by_cases hc : c = '$'
    · cases ht : numTok rest with
      | some mr =>
        obtain ⟨m1, r1⟩ := mr
        rw [searchDollarNum, if_pos hc, ht] at h
        injection h with hm
        exact hm ▸ numTok_shape ht
      | none =>
        rw [searchDollarNum, if_pos hc, ht] at h
        exact ih h
    · rw [searchDollarNum, if_neg hc] at h
      exact ih h

theorem searchPriceDash_shape : ∀ {l m : List Char},
    searchPriceDash l = some m → numShape m := by
  intro l
  induction l with
  | nil => intro m h; simp [searchPriceDash] at h
  | cons c rest ih =>
    intro m h
    by_cases hc : "price-".data.isPrefixOf (c :: rest) = true
    · cases ht : numTok ((c :: rest).drop 6) with
      | some mr =>
        obtain ⟨m1, r1⟩ := mr
        rw [searchPriceDash, if_pos hc, ht] at h
        injection h with hm
        exact hm ▸ numTok_shape ht
      | none =>
        rw [searchPriceDash, if_pos hc, ht] at h
        exact ih h
    · rw [searchPriceDash, if_neg hc] at h
      exact ih h

theorem searchDollarFull_shape : ∀ {l m : List Char},
    searchDollarFull l = some m → ∃ m0, m = '$' :: m0 ∧ numShape m0 := by
  intro l
  induction l with
  | nil => intro m h; simp [searchDollarFull] at h
  | cons c rest ih =>
    intro m h
    by_cases hc : c = '$'
    · cases ht : numTok rest with
      | some mr =>
        obtain ⟨m1, r1⟩ := mr
        rw [searchDollarFull, if_pos hc, ht] at h
        injection h with hm
        exact ⟨m1, hm.symm, numTok_shape ht⟩
      | none =>
        rw [searchDollarFull, if_pos hc, ht] at h
        exact ih h
    · rw [searchDollarFull, if_neg hc] at h
      exact ih h

theorem elMatch_shape {el : PriceEl} {v : List Char} (h : elMatch el = some v) :
    numShape v := by
  simp only [elMatch] at h
  cases ht : searchDollarNum ((pyStrip el.text).data ++ ' ' :: el.testid.data) with
  | some m =>
    rw [ht] at h
    injection h with hm
    exact hm ▸ searchDollarNum_shape ht
  | none =>
    rw [ht] at h
    exact searchPriceDash_shape h

/-! ### Canonical and loose price shapes -/

theorem canon_intro {d fr : List Char} (hd : d ≠ []) (hda : d.all Char.isDigit = true)
    (hfr : fr.all Char.isDigit = true) (hlen : fr.length = 2) :
    matchesCanonical ⟨'$' :: (d ++ '.' :: fr)⟩ = true := by
  unfold matchesCanonical
  simp only [List.tail_cons, List.head?_cons, Bool.and_eq_true, decide_eq_true_eq]
  rw [takeWhile_all_append _ _ _ hda, dropWhile_all_append _ _ _ hda]
  simp [List.dropWhile_cons, List.takeWhile_cons,
    (by decide : ('.' : Char).isDigit = false), hd, hlen, hfr]

theorem loose_intro {d e : List Char} (hd : d ≠ []) (hda : d.all Char.isDigit = true)
    (hea : e.all Char.isDigit = true) :
    matchesLoose ⟨'$' :: (d ++ '.' :: e)⟩ = true := by
  unfold matchesLoose
  simp only [List.tail_cons, List.head?_cons, Bool.and_eq_true, decide_eq_true_eq]
  rw [takeWhile_all_append _ _ _ hda, dropWhile_all_append _ _ _ hda]
  simp [List.dropWhile_cons, List.takeWhile_cons,
    (by decide : ('.' : Char).isDigit = false), hd, hea]

theorem canonical_loose {s : String} (h : matchesCanonical s = true) :
    matchesLoose s = true := by
  unfold matchesCanonical at h
  unfold matchesLoose
  simp only [Bool.and_eq_true, decide_eq_true_eq] at h ⊢
  exact ⟨⟨⟨h.1.1.1.1, h.1.1.1.2⟩, h.1.1.2⟩, h.2⟩

/-! ### Standardised values are canonical -/

theorem contains_dot_of_dot (d e : List Char) :
    (d ++ '.' :: e).contains '.' = true := by
  have hm : ('.' : Char) ∈ d ++ '.' :: e := by simp
  exact List.elem_iff.mpr hm

theorem not_contains_dot_of_digits {d : List Char}
    (hda : d.all Char.isDigit = true) : d.contains '.' = false := by
  cases hc : d.contains '.' with
  | false => rfl
  | true =>
    exfalso
    have hm : ('.' : Char) ∈ d := List.elem_iff.mp hc
    rw [List.all_eq_true] at hda
    exact absurd (hda _ hm) (by decide)

theorem not_contains_dot_dollar {d : List Char}
    (hda : d.all Char.isDigit = true) : ('$' :: d).contains '.' = false := by
  cases hc : ('$' :: d).contains '.' with
  | false => rfl
  | true =>
    exfalso
    have hm : ('.' : Char) ∈ '$' :: d := List.elem_iff.mp hc
    rcases List.mem_cons.mp hm with h | h
    · exact absurd h (by decide)
    · rw [List.all_eq_true] at hda
      exact absurd (hda _ h) (by decide)

theorem all_ne_dot_of_not_mem {d : List Char} (h : ('.' : Char) ∉ d) :
    d.all (fun c => c ≠ '.') = true := by
  rw [List.all_eq_true]
  intro x hx
  simp only [ne_eq, decide_eq_true_eq]
  intro he
  exact h (he ▸ hx)

theorem not_contains_dot_of_not_mem {d : List Char} (h : ('.' : Char) ∉ d) :
    d.contains '.' = false := by
  cases hc : d.contains '.' with
  | false => rfl
  | true => exact absurd (List.elem_iff.mp hc) h

theorem not_mem_dot_of_digits {d : List Char} (hda : d.all Char.isDigit = true) :
    ('.' : Char) ∉ d := by
  intro hm
  rw [List.all_eq_true] at hda
  exact absurd (hda _ hm) (by decide)

theorem formatVal_nodot {d : List Char} (hnm : ('.' : Char) ∉ d) :
    formatVal d = ⟨'$' :: (d ++ ['.', '0', '0'])⟩ := by
  unfold formatVal
  rw [not_contains_dot_of_not_mem hnm]
  simp

theorem formatVal_dot {d e : List Char} (hnd : d.all (fun c => c ≠ '.') = true) :
    formatVal (d ++ '.' :: e) =
      ⟨'$' :: (d ++ '.' ::
        (e.take 2 ++ List.replicate (2 - (e.take 2).length) '0'))⟩ := by
  unfold formatVal
  rw [contains_dot_of_dot]
  rw [takeWhile_all_append _ _ _ hnd, dropWhile_all_append _ _ _ hnd]
  simp [List.takeWhile_cons, List.dropWhile_cons]

theorem formatVal_canonical {v : List Char} (hv : numShape v) :
    matchesCanonical (formatVal v) = true := by
  obtain ⟨d, e, hd, hda, hea, hcase⟩ := hv
  cases hcase with
  | inl h =>
    subst h
    rw [formatVal_nodot (not_mem_dot_of_digits hda)]
    exact canon_intro hd hda (by decide) (by decide)
  | inr h =>
    subst h
    rw [formatVal_dot (digits_ne_dot hda)]
    refine canon_intro hd hda ?_ ?_
    · rw [List.all_append, Bool.and_eq_true]
      refine ⟨?_, ?_⟩
      · rw [List.all_eq_true]
        intro x hx
        rw [List.all_eq_true] at hea
        exact hea x (List.mem_of_mem_take hx)
      · rw [List.all_eq_true]
        intro x hx
        rw [List.eq_of_mem_replicate hx]
        decide
    · rw [List.length_append, List.length_replicate]
      have h2 : (e.take 2).length ≤ 2 := by
        rw [List.length_take]
        exact inf_le_left
      omega

theorem priceLoop_canonical : ∀ (els : List PriceEl) (p : String),
    matchesCanonical p = true → matchesCanonical (priceLoop p els).1 = true := by
  intro els
  induction els with
  | nil => intro p hp; exact hp
  | cons el rest ih =>
    intro p hp
    cases hm : elMatch el with
    | some v =>
      rw [priceLoop, hm]
      show matchesCanonical
          (if formatVal v ≠ "$0.00" then (formatVal v, true)
           else priceLoop (formatVal v) rest).1 = true
      by_cases hz : formatVal v = "$0.00"
      · rw [if_neg (not_not_intro hz)]
        exact ih _ (formatVal_canonical (elMatch_shape hm))
      · rw [if_pos hz]
        exact formatVal_canonical (elMatch_shape hm)
    | none =>
      rw [priceLoop, hm]
      exact ih _ hp

theorem fallbackPrice_loose {t q : String} (h : fallbackPrice t = some q) :
    matchesLoose q = true := by
  unfold fallbackPrice at h
  cases hs : searchDollarFull t.data with
  | none => rw [hs] at h; exact absurd h (by simp)
  | some m =>
    rw [hs] at h
    injection h with hq
    obtain ⟨m0, hm0, d, e, hd, hda, hea, hcase⟩ := searchDollarFull_shape hs
    subst hm0
    cases hcase with
    | inl hh =>
      subst hh
      rw [not_contains_dot_dollar hda, if_neg (by simp)] at hq
      rw [← hq]
      exact loose_intro hd hda (e := ['0', '0']) (by decide)
    | inr hh =>
      subst hh
      rw [show ('$' :: (d ++ '.' :: e)).contains '.' = true from
        List.elem_iff.mpr (by simp), if_pos rfl] at hq
      rw [← hq]
      exact loose_intro hd hda hea

theorem extractPrice_found_canonical (card : Card)
    (h : (priceLoop "$0.00" card.price_elements).2 = true) :
    matchesCanonical (extractPrice card) = true := by
  unfold extractPrice
  simp only [h, if_true]
  exact priceLoop_canonical _ _ (by decide)

theorem extractPrice_none_canonical (card : Card)
    (h : fallbackPrice card.full_text = none) :
    matchesCanonical (extractPrice card) = true := by
  unfold extractPrice
  cases hf : (priceLoop "$0.00" card.price_elements).2 with
  | true =>
    simp only [hf, if_true]
    exact priceLoop_canonical _ _ (by decide)
  | false =>
    simp only [hf, Bool.false_eq_true, if_false, h]
    exact priceLoop_canonical _ _ (by decide)

theorem extractPrice_loose (card : Card) :
    matchesLoose (extractPrice card) = true := by
  unfold extractPrice
  cases hf : (priceLoop "$0.00" card.price_elements).2 with
  | true =>
    simp only [hf, if_true]
    exact canonical_loose (priceLoop_canonical _ _ (by decide))
  | false =>
    simp only [hf, Bool.false_eq_true, if_false]
    cases hq : fallbackPrice card.full_text with
    | some q =>
      simp only [hq]
      exact fallbackPrice_loose hq
    | none =>
      simp only [hq]
      exact canonical_loose (priceLoop_canonical _ _ (by decide))

/-! ### Behaviour of the strategy-A loop -/

theorem priceLoop_all_zero : ∀ (els : List PriceEl),
    (∀ el ∈ els, ∀ v, elMatch el = some v → formatVal v = "$0.00") →
    priceLoop "$0.00" els = ("$0.00", false) := by
  intro els
  induction els with
  | nil => intro _; rfl
  | cons el rest ih =>
    intro h
    cases hm : elMatch el with
    | some v =>
      rw [priceLoop, hm]
      show (if formatVal v ≠ "$0.00" then (formatVal v, true)
            else priceLoop (formatVal v) rest) = ("$0.00", false)
      have hz := h el (by simp) v hm
      rw [if_neg (not_not_intro hz), hz]
      exact ih (fun e he w hw => h e (by simp [he]) w hw)
    | none =>
      rw [priceLoop, hm]
      exact ih (fun e he w hw => h e (by simp [he]) w hw)

theorem priceLoop_first_nonzero : ∀ (pre : List PriceEl) (p : String)
    (el : PriceEl) (post : List PriceEl) (v : List Char),
    (∀ e ∈ pre, ∀ w, elMatch e = some w → formatVal w = "$0.00") →
    elMatch el = some v → formatVal v ≠ "$0.00" →
    priceLoop p (pre ++ el :: post) = (formatVal v, true) := by
  intro pre
  induction pre with
  | nil =>
    intro p el post v _ hm hnz
    rw [List.nil_append, priceLoop, hm]
    show (if formatVal v ≠ "$0.00" then (formatVal v, true)
          else priceLoop (formatVal v) post) = (formatVal v, true)
    rw [if_pos hnz]
  | cons e0 pres ih =>
    intro p el post v hz hm hnz
    rw [List.cons_append]
    cases hm0 : elMatch e0 with
    | some w =>
      rw [priceLoop, hm0]
      show (if formatVal w ≠ "$0.00" then (formatVal w, true)
            else priceLoop (formatVal w) (pres ++ el :: post)) = (formatVal v, true)
      have h0 := hz e0 (by simp) w hm0
      rw [if_neg (not_not_intro h0)]
      exact ih _ el post v (fun e he ww hw => hz e (by simp [he]) ww hw) hm hnz
    | none =>
      rw [priceLoop, hm0]
      exact ih _ el post v (fun e he ww hw => hz e (by simp [he]) ww hw) hm hnz

theorem extractPrice_first_nonzero (card : Card) (pre post : List PriceEl)
    (el : PriceEl) (v : List Char)
    (hsplit : card.price_elements = pre ++ el :: post)
    (hz : ∀ e ∈ pre, ∀ w, elMatch e = some w → formatVal w = "$0.00")
    (hm : elMatch el = some v) (hnz : formatVal v ≠ "$0.00") :
    extractPrice card = formatVal v := by
  unfold extractPrice
  rw [hsplit, priceLoop_first_nonzero pre _ el post v hz hm hnz]
  simp

theorem extractPrice_all_zero (card : Card)
    (h : ∀ el ∈ card.price_elements, ∀ v, elMatch el = some v →
      formatVal v = "$0.00") :
    extractPrice card =
      (match fallbackPrice card.full_text with
       | some q => q
       | none => "$0.00") := by
  unfold extractPrice
  rw [priceLoop_all_zero _ h]
  cases hq : fallbackPrice card.full_text <;> simp [hq]

/-! ### Per-card extraction facts -/

theorem scrapeCard_some_eq {card : Card} {lab : String} {p : Product}
    (h : scrapeCard card lab = some p) :
    nameOf card ≠ "Unknown" ∧
    p = { name :=
            if brandOf card ≠ "" &&
                !(pyStartsWith (lowerStr (nameOf card)) (lowerStr (brandOf card))) then
              brandOf card ++ " - " ++ nameOf card
            else nameOf card,
          price := extractPrice card, meta := extractMeta card, category := lab,
          image :=
            match card.img_el with
            | some src => src
            | none => some "" } := by
  simp only [scrapeCard] at h
  by_cases hn : nameOf card = "Unknown"
  · rw [if_neg (not_not_intro hn)] at h
    exact absurd h (by simp)
  · rw [if_pos hn] at h
    injection h with hp
    exact ⟨hn, hp.symm⟩

theorem scrapeCard_none_iff (card : Card) (lab : String) :
    scrapeCard card lab = none ↔ nameOf card = "Unknown" := by
  simp only [scrapeCard]
  by_cases hn : nameOf card = "Unknown"
  · rw [if_neg (not_not_intro hn)]
    simp [hn]
  · rw [if_pos hn]
    simp [hn]

theorem dash_ne_unknown (b n : String) : b ++ " - " ++ n ≠ "Unknown" := by
  intro h
  have hm : ('-' : Char) ∈ (b ++ " - " ++ n).data := by
    rw [String.data_append, String.data_append]
    exact List.mem_append.mpr (Or.inl (List.mem_append.mpr (Or.inr (by decide))))
  rw [h] at hm
  exact absurd hm (by decide)

theorem scrapeCard_some_name {card : Card} {lab : String} {p : Product}
    (h : scrapeCard card lab = some p) : p.name ≠ "Unknown" := by
  obtain ⟨hn, hp⟩ := scrapeCard_some_eq h
  subst hp
  by_cases hb : (brandOf card ≠ "" &&
      !(pyStartsWith (lowerStr (nameOf card)) (lowerStr (brandOf card)))) = true
  · simp only [hb, if_true]
    exact dash_ne_unknown _ _
  · simp only [Bool.not_eq_true] at hb
    simp only [hb, Bool.false_eq_true, if_false]
    exact hn

theorem scrape_count (cards : List Card) (lab : String) :
    (scrape_page_products cards lab).length
      + (cards.filter (fun c => nameOf c == "Unknown")).length = cards.length := by
  induction cards with
  | nil => rfl
  | cons c cs ih =>
    unfold scrape_page_products at ih ⊢
    rw [List.filterMap_cons, List.filter_cons]
    by_cases h : nameOf c = "Unknown"
    · rw [(scrapeCard_none_iff c lab).mpr h]
      simp only [h, beq_self_eq_true, if_true, List.length_cons]
      omega
    · cases hs : scrapeCard c lab with
      | none => exact absurd ((scrapeCard_none_iff c lab).mp hs) h
      | some p =>
        have hb : (nameOf c == "Unknown") = false := beq_eq_false_iff_ne.mpr h
        simp only [hb, Bool.false_eq_true, if_false, List.length_cons]
        omega

/-! ### Merger facts -/

theorem upsert_notmem (m : List (String × Product)) (k : String) (v : Product)
    (h : k ∉ m.map Prod.fst) : upsert m k v = m ++ [(k, v)] := by
  induction m with
  | nil => rfl
  | cons e rest ih =>
    obtain ⟨k0, v0⟩ := e
    simp only [List.map_cons, List.mem_cons] at h
    push_neg at h
    rw [upsert, if_neg (Ne.symm h.1), ih h.2]
    rfl

theorem foldl_upsert_fresh : ∀ (ps : List Product) (m : List (String × Product)),
    (∀ p ∈ ps, p.name ∉ m.map Prod.fst) → (ps.map Product.name).Nodup →
    ps.foldl (fun m p => upsert m p.name p) m
      = m ++ ps.map (fun p => (p.name, p)) := by
  intro ps
  induction ps with
  | nil => intro m _ _; simp
  | cons p rest ih =>
    intro m hfresh hnd
    rw [List.foldl_cons, upsert_notmem m p.name p (hfresh p (by simp))]
    rw [List.map_cons, List.nodup_cons] at hnd
    rw [ih (m ++ [(p.name, p)]) ?_ hnd.2]
    · simp [List.append_assoc]
    · intro q hq
      rw [List.map_append, List.mem_append]
      push_neg
      refine ⟨hfresh q (by simp [hq]), ?_⟩
      simp only [List.map_cons, List.map_nil, List.mem_singleton]
      intro hc
      exact hnd.1 (hc ▸ List.mem_map_of_mem Product.name hq)

theorem upsert_keys (m : List (String × Product)) (k : String) (v : Product) :
    (upsert m k v).map Prod.fst =
      if k ∈ m.map Prod.fst then m.map Prod.fst
      else m.map Prod.fst ++ [k] := by
  induction m with
  | nil => simp [upsert]
  | cons e rest ih =>
    obtain ⟨k0, v0⟩ := e
    by_cases h : k0 = k
    · subst h
      rw [upsert, if_pos rfl]
      simp
    · rw [upsert, if_neg h]
      simp only [List.map_cons, ih, List.mem_cons]
      by_cases hk : k ∈ rest.map Prod.fst
      · simp [hk, Ne.symm h]
      · simp [hk, Ne.symm h]

theorem mem_upsert {m : List (String × Product)} {k : String} {v : Product}
    {e : String × Product} (he : e ∈ upsert m k v) : e ∈ m ∨ e = (k, v) := by
  induction m with
  | nil =>
    rw [upsert] at he
    exact Or.inr (List.mem_singleton.mp he)
  | cons e0 rest ih =>
    obtain ⟨k0, v0⟩ := e0
    by_cases h : k0 = k
    · rw [upsert, if_pos h] at he
      rcases List.mem_cons.mp he with hh | hh
      · exact Or.inr (by rw [hh, h])
      · exact Or.inl (List.mem_cons_of_mem _ hh)
    · rw [upsert, if_neg h] at he
      rcases List.mem_cons.mp he with hh | hh
      · exact Or.inl (by rw [hh]; exact List.mem_cons_self _ _)
      · rcases ih hh with hh2 | hh2
        · exact Or.inl (List.mem_cons_of_mem _ hh2)
        · exact Or.inr hh2

theorem upsert_good {m : List (String × Product)} (v : Product)
    (h : goodMap m) : goodMap (upsert m v.name v) := by
  obtain ⟨hnd, hkey⟩ := h
  constructor
  · rw [upsert_keys]
    by_cases hk : v.name ∈ m.map Prod.fst
    · simp only [hk, if_true]
      exact hnd
    · simp only [hk, if_false]
      rw [List.nodup_append]
      exact ⟨hnd, List.nodup_singleton _, by simp [List.disjoint_singleton, hk]⟩
  · intro e he
    rcases mem_upsert he with hh | hh
    · exact hkey e hh
    · rw [hh]

theorem foldl_upsert_good : ∀ (ps : List Product) (m : List (String × Product)),
    goodMap m → goodMap (ps.foldl (fun m p => upsert m p.name p) m) := by
  intro ps
  induction ps with
  | nil => intro m h; exact h
  | cons p rest ih =>
    intro m h
    rw [List.foldl_cons]
    exact ih _ (upsert_good p h)

theorem unique_products_of_nodup (ps : List Product)
    (h : (ps.map Product.name).Nodup) : unique_products ps = ps := by
  unfold unique_products
  rw [foldl_upsert_fresh ps [] (by simp) h]
  rw [List.nil_append, List.map_map]
  rw [show (Prod.snd ∘ fun p : Product => (p.name, p)) = id from rfl, List.map_id]

theorem unique_products_nodup_names (ps : List Product) :
    ((unique_products ps).map Product.name).Nodup := by
  unfold unique_products
  obtain ⟨hnd, hkey⟩ := foldl_upsert_good ps [] ⟨by simp, by simp⟩
  rw [List.map_map]
  have heq : (ps.foldl (fun m p => upsert m p.name p) []).map (Product.name ∘ Prod.snd)
      = (ps.foldl (fun m p => upsert m p.name p) []).map Prod.fst :=
    List.map_congr_left (fun e he => (hkey e he).symm)
  rw [heq]
  exact hnd

theorem unique_products_pair (p q : Product) (h : p.name = q.name) :
    unique_products [p, q] = [q] := by
  unfold unique_products
  simp [upsert, h]

theorem lookupKey_cons (k0 : String) (v0 : Product)
    (rest : List (String × Product)) (n : String) :
    lookupKey ((k0, v0) :: rest) n =
      if k0 = n then some v0 else lookupKey rest n := by
  unfold lookupKey
  by_cases h : k0 = n
  · rw [if_pos h, List.find?_cons_of_pos _ (by simp [h])]
    rfl
  · rw [if_neg h, List.find?_cons_of_neg _ (by simp [h])]

theorem lookupKey_upsert (m : List (String × Product)) (k n : String)
    (v : Product) :
    lookupKey (upsert m k v) n = if n = k then some v else lookupKey m n := by
  induction m with
  | nil =>
    rw [upsert, lookupKey_cons]
    by_cases h : n = k
    · rw [if_pos h.symm, if_pos h]
    · rw [if_neg (fun hh => h hh.symm), if_neg h]
  | cons e rest ih =>
    obtain ⟨k0, v0⟩ := e
    by_cases hk : k0 = k
    · subst hk
      rw [upsert, if_pos rfl, lookupKey_cons, lookupKey_cons]
      by_cases h : k0 = n
      · rw [if_pos h, if_pos h, if_pos h.symm]
      · rw [if_neg h, if_neg h, if_neg (fun hh => h hh.symm)]
    · rw [upsert, if_neg hk, lookupKey_cons, ih, lookupKey_cons]
      by_cases h1 : k0 = n <;> by_cases h2 : n = k
      · exact absurd (h1.trans h2) hk
      · simp [h1, h2]
      · subst h2
        simp [h1]
      · simp [h1, h2]

theorem lastNamed_cons (n : String) (p : Product) (rest : List Product) :
    lastNamed n (p :: rest) =
      if p.name = n then
        (match lastNamed n rest with
         | some q => some q
         | none => some p)
      else lastNamed n rest := by
  unfold lastNamed
  rw [List.filter_cons]
  by_cases h : p.name = n
  · rw [if_pos (by simp [h]), if_pos h, List.getLast?_cons]
    cases hf : (rest.filter (fun q => q.name == n)).getLast? with
    | some q => simp [hf]
    | none => simp [hf]
  · rw [if_neg (by simp [h]), if_neg h]

theorem foldl_upsert_lastNamed : ∀ (ps : List Product)
    (m : List (String × Product)) (n : String),
    lookupKey (ps.foldl (fun m p => upsert m p.name p) m) n =
      (match lastNamed n ps with
       | some q => some q
       | none => lookupKey m n) := by
  intro ps
  induction ps with
  | nil => intro m n; simp [lastNamed]
  | cons p rest ih =>
    intro m n
    rw [List.foldl_cons, ih, lastNamed_cons]
    by_cases h : p.name = n
    · rw [if_pos h]
      cases hl : lastNamed n rest with
      | some q => simp
      | none =>
        simp only []
        rw [lookupKey_upsert, if_pos h.symm]
    · rw [if_neg h]
      cases hl : lastNamed n rest with
      | some q => simp
      | none =>
        simp only []
        rw [lookupKey_upsert, if_neg (fun hh => h hh.symm)]

theorem map_snd_find? (m : List (String × Product)) (n : String)
    (hkey : ∀ e ∈ m, e.1 = e.2.name) :
    (m.map Prod.snd).find? (fun p => p.name == n) = lookupKey m n := by
  induction m with
  | nil => rfl
  | cons e rest ih =>
    obtain ⟨k0, v0⟩ := e
    have hk : k0 = v0.name := hkey (k0, v0) (by simp)
    rw [List.map_cons, lookupKey_cons]
    by_cases h : k0 = n
    · rw [if_pos h, List.find?_cons_of_pos _ (by simp [← hk, h])]
    · rw [if_neg h, List.find?_cons_of_neg _ (by simp [← hk, h])]
      exact ih (fun e he => hkey e (by simp [he]))

theorem unique_products_lastNamed (ps : List Product) (n : String) :
    (unique_products ps).find? (fun p => p.name == n) = lastNamed n ps := by
  unfold unique_products
  obtain ⟨-, hkey⟩ := foldl_upsert_good ps [] ⟨by simp, by simp⟩
  rw [map_snd_find? _ n hkey, foldl_upsert_lastNamed]
  cases hl : lastNamed n ps with
  | some q => rfl
  | none => rfl

/-! ### Scroll-loop facts -/

theorem scrollSteps_spec (h : Nat → Nat) : ∀ (fuel i n : Nat),
    scrollSteps h fuel i = some n →
    i < n ∧ h n = h (n - 1) ∧ ∀ m, i < m → m < n → h m ≠ h (m - 1) := by
  intro fuel
  induction fuel with
  | zero => intro i n hs; exact absurd hs (by simp [scrollSteps])
  | succ fuel ih =>
    intro i n hs
    rw [scrollSteps] at hs
    by_cases hc : h (i + 1) = h i
    · rw [if_pos hc] at hs
      injection hs with hn
      subst hn
      refine ⟨by omega, by simpa using hc, ?_⟩
      intro m h1 h2
      omega
    · rw [if_neg hc] at hs
      obtain ⟨h1, h2, h3⟩ := ih (i + 1) n hs
      refine ⟨by omega, h2, ?_⟩
      intro m hm1 hm2
      by_cases hmi : m = i + 1
      · subst hmi
        simpa using hc
      · exact h3 m (by omega) hm2

theorem scrollSteps_diverge (h : Nat → Nat) (hg : ∀ n, h (n + 1) ≠ h n) :
    ∀ fuel i, scrollSteps h fuel i = none := by
  intro fuel
  induction fuel with
  | zero => intro i; rfl
  | succ fuel ih =>
    intro i
    rw [scrollSteps, if_neg (hg i)]
    exact ih (i + 1)

/-! ### Category-walker facts -/

theorem runCategories_foldl (f : String → Except String (List Product)) :
    ∀ (cats : List String) (acc : List Product),
    cats.foldl
        (fun acc c =>
          match f c with
          | Except.ok rs => acc ++ rs
          | Except.error _ => acc) acc
      = acc ++ (cats.map (fun c => exceptRecords (f c))).flatten := by
  intro cats
  induction cats with
  | nil => intro acc; simp
  | cons c cs ih =>
    intro acc
    have hstep : (match f c with
        | Except.ok rs => acc ++ rs
        | Except.error _ => acc) = acc ++ exceptRecords (f c) := by
      cases f c <;> simp [exceptRecords]
    simp only [List.foldl_cons]
    rw [hstep, ih, List.map_cons, List.flatten_cons, List.append_assoc]

theorem runCategories_eq (cats : List String)
    (f : String → Except String (List Product)) :
    runCategories cats f = (cats.map (fun c => exceptRecords (f c))).flatten := by
  unfold runCategories
  rw [runCategories_foldl]
  simp

/-! ## Claims -/

/-- C1, counterexample: for a card whose price-tagged elements yield the
values 50.00 and then 40.00, the extractor returns `$50.00` — the first
nonzero value in element order — not the minimum `$40.00` the claim
demands. -/
theorem C1_counterexample :
    extractPrice twoPriceCard = "$50.00" ∧ ("$50.00" : String) ≠ "$40.00" := by
  exact ⟨by decide, by decide⟩

/-- C1 (amended): when the price-tagged elements split into a prefix whose
recovered values all standardise to the zero string followed by an element
whose value standardises to a nonzero price, the canonical price is that
first nonzero standardised value — first-nonzero-wins in element order, not
minimum-wins. -/
theorem C1_first_nonzero_wins (card : Card) (pre post : List PriceEl)
    (el : PriceEl) (v : List Char)
    (hsplit : card.price_elements = pre ++ el :: post)
    (hz : ∀ e ∈ pre, ∀ w, elMatch e = some w → formatVal w = "$0.00")
    (hm : elMatch el = some v) (hnz : formatVal v ≠ "$0.00") :
    extractPrice card = formatVal v :=
  extractPrice_first_nonzero card pre post el v hsplit hz hm hnz

/-- Witness for C1 at the two-price card: the leading original-price element
is nonzero, so the extracted price is the standardised `$50.00`. -/
theorem C1_first_nonzero_wins_witness : extractPrice twoPriceCard = "$50.00" := by
  have h := C1_first_nonzero_wins twoPriceCard [] [discountPriceEl]
    originalPriceEl ("50.00".data) rfl
    (by intro e he w hw; simp at he) (by decide) (by decide)
  rw [h]
  decide

/-- C2, counterexample: a card with no price-tagged elements whose text reads
`$45.5` gets the price `$45.5`, which neither matches the canonical
two-decimal regex nor equals the zero default. -/
theorem C2_counterexample :
    extractPrice oneDecimalCard = "$45.5" ∧ matchesCanonical "$45.5" = false ∧
      ("$45.5" : String) ≠ "$0.00" := by
  exact ⟨by decide, by decide, by decide⟩

/-- C2 (amended): every extracted price matches the looser shape
`^\$\d+\.\d*$`; the strict two-decimal shape `^\$\d+\.\d{2}$` holds whenever
strategy (a) found a nonzero element and whenever the text fallback finds no
currency evidence (the `$0.00` default included), but the whole-text fallback
keeps its matched fraction verbatim and so may emit other fraction
lengths. -/
theorem C2_price_shape :
    (∀ card : Card, matchesLoose (extractPrice card) = true) ∧
    (∀ card : Card, (priceLoop "$0.00" card.price_elements).2 = true →
      matchesCanonical (extractPrice card) = true) ∧
    (∀ card : Card, fallbackPrice card.full_text = none →
      matchesCanonical (extractPrice card) = true) :=
  ⟨extractPrice_loose, extractPrice_found_canonical, extractPrice_none_canonical⟩

/-- Witness for C2: the loose shape on the fallback card, and the canonical
shape both for a found strategy-A price and for a card with no currency
evidence. -/
theorem C2_price_shape_witness :
    matchesLoose (extractPrice oneDecimalCard) = true ∧
    matchesCanonical (extractPrice zeroThenThirtyCard) = true ∧
    matchesCanonical (extractPrice (textCard "Widget" "no currency here")) = true :=
  ⟨C2_price_shape.1 oneDecimalCard,
    C2_price_shape.2.1 zeroThenThirtyCard (by decide),
    C2_price_shape.2.2 (textCard "Widget" "no currency here") (by decide)⟩

/-- C3, counterexample: for a card whose text contains `CBD 5%`, the meta
field is `THC: 5%` — the percentage group wrapped in a `THC: ` prefix — not
the full matched text `CBD 5%`; and for a card whose text only carries a
milligram dosage, meta is `THC: N/A`, not `100 mg` and not the bare
sentinel `N/A`. -/
theorem C3_counterexample :
    (scrapeCard cbdCard "EDIBLES").map Product.meta = some "THC: 5%" ∧
    ("THC: 5%" : String) ≠ "CBD 5%" ∧
    extractMeta mgCard = "THC: N/A" ∧ ("THC: N/A" : String) ≠ "100 mg" ∧
    ("THC: N/A" : String) ≠ "N/A" := by
  exact ⟨by decide, by decide, by decide, by decide, by decide⟩

/-- C3 (amended): meta is `THC: ` followed by the percentage group of the
first case-insensitive `(THCa?|CBD)`-then-percentage match in the card's
text; the full matched text is not kept, a bare milligram quantity is not
recognised, and absence yields `THC: N/A` — demonstrated across the
pattern's variants. -/
theorem C3_meta_behaviour :
    extractMeta (textCard "Widget" "Gelato THC 21.5% Hybrid") = "THC: 21.5%" ∧
    extractMeta (textCard "Widget" "Total THC 20% per pack") = "THC: 20%" ∧
    extractMeta (textCard "Widget" "fresh thca 30% indoor") = "THC: 30%" ∧
    extractMeta cbdCard = "THC: 5%" ∧
    extractMeta mgCard = "THC: N/A" ∧
    extractMeta (textCard "Widget" "no potency listed") = "THC: N/A" := by
  exact ⟨by decide, by decide, by decide, by decide, by decide, by decide⟩

/-- C4: the composed full name is brand-dash-name exactly when the brand is
nonempty and the name does not already start with the brand
case-insensitively; otherwise the name is kept unchanged — including the two
spec fixtures. -/
theorem C4_full_name :
    (∀ (card : Card) (lab : String) (p : Product), scrapeCard card lab = some p →
      brandOf card = "" → p.name = nameOf card) ∧
    (∀ (card : Card) (lab : String) (p : Product), scrapeCard card lab = some p →
      pyStartsWith (lowerStr (nameOf card)) (lowerStr (brandOf card)) = true →
      p.name = nameOf card) ∧
    (∀ (card : Card) (lab : String) (p : Product), scrapeCard card lab = some p →
      brandOf card ≠ "" →
      pyStartsWith (lowerStr (nameOf card)) (lowerStr (brandOf card)) = false →
      p.name = brandOf card ++ " - " ++ nameOf card) ∧
    (scrapeCard blackBuddhaCard "FLOWER").map Product.name
      = some "Black Buddha - Energy Sativa" ∧
    (scrapeCard kivaCard "EDIBLES").map Product.name
      = some "Kiva - Chocolate Bar" := by
  refine ⟨?_, ?_, ?_, by decide, by decide⟩
  · intro card lab p h hb
    obtain ⟨-, hp⟩ := scrapeCard_some_eq h
    subst hp
    simp [hb]
  · intro card lab p h hs
    obtain ⟨-, hp⟩ := scrapeCard_some_eq h
    subst hp
    simp [hs]
  · intro card lab p h hb hs
    obtain ⟨-, hp⟩ := scrapeCard_some_eq h
    subst hp
    simp [hb, hs]

/-- Witness for C4 at the Kiva card: its brand is nonempty, its name does not
start with the brand, and the emitted record composes them with a dash. -/
theorem C4_full_name_witness :
    kivaProduct.name = brandOf kivaCard ++ " - " ++ nameOf kivaCard :=
  C4_full_name.2.2.1 kivaCard "EDIBLES" kivaProduct (by decide) (by decide)
    (by decide)

/-- C5: a card is dropped exactly when its name resolves to the Unknown
sentinel, the output count is the input count minus the unusable count, and
no emitted record's name is the sentinel. -/
theorem C5_unusable :
    (∀ (card : Card) (lab : String),
      scrapeCard card lab = none ↔ nameOf card = "Unknown") ∧
    (∀ (cards : List Card) (lab : String),
      (scrape_page_products cards lab).length
        = cards.length - (cards.filter (fun c => nameOf c == "Unknown")).length) ∧
    (∀ (cards : List Card) (lab : String) (p : Product),
      p ∈ scrape_page_products cards lab → p.name ≠ "Unknown") := by
  refine ⟨scrapeCard_none_iff, ?_, ?_⟩
  · intro cards lab
    have h := scrape_count cards lab
    omega
  · intro cards lab p hp
    obtain ⟨c, hc, hsc⟩ := List.mem_filterMap.mp hp
    exact scrapeCard_some_name hsc

/-- Witness for C5: the card without a name element is dropped, a two-card
list with one unusable name yields one record, and the emitted Kiva record's
name is not the sentinel. -/
theorem C5_unusable_witness :
    scrapeCard unnamedCard "FLOWER" = none ∧
    (scrape_page_products [kivaCard, unnamedCard] "FLOWER").length = 2 - 1 ∧
    kivaProduct.name ≠ "Unknown" := by
  refine ⟨(C5_unusable.1 unnamedCard "FLOWER").mpr (by decide), ?_,
    C5_unusable.2.2 [kivaCard] "EDIBLES" kivaProduct (by decide)⟩
  rw [C5_unusable.2.1 [kivaCard, unnamedCard] "FLOWER"]
  decide

/-- C6: the merger keeps one record per unique name with later occurrences
overwriting earlier ones: an already-name-unique list is returned unchanged,
output names are always duplicate-free, and two same-named records collapse
to the later one. -/
theorem C6_merge :
    (∀ ps : List Product, (ps.map Product.name).Nodup → unique_products ps = ps) ∧
    (∀ ps : List Product, ((unique_products ps).map Product.name).Nodup) ∧
    (∀ p q : Product, p.name = q.name → unique_products [p, q] = [q]) ∧
    (∀ (ps : List Product) (n : String),
      (unique_products ps).find? (fun p => p.name == n) = lastNamed n ps) :=
  ⟨unique_products_of_nodup, unique_products_nodup_names, unique_products_pair,
    unique_products_lastNamed⟩

/-- Witness for C6: merging two distinct-named records returns them
unchanged, merging two same-named records keeps only the later one, and the
record kept under a duplicated name is the last occurrence. -/
theorem C6_merge_witness :
    unique_products [prodA, prodB] = [prodA, prodB] ∧
    unique_products [prodA, prodA2] = [prodA2] ∧
    (unique_products [prodA, prodA2]).find? (fun p => p.name == "Alpha")
      = lastNamed "Alpha" [prodA, prodA2] :=
  ⟨C6_merge.1 [prodA, prodB] (by decide), C6_merge.2.2.1 prodA prodA2 (by decide),
    C6_merge.2.2.2 [prodA, prodA2] "Alpha"⟩

/-- C7: the scroll loop terminates exactly at the first pair of equal
consecutive height measurements: on the 100, 300, 300 sequence it issues
exactly 2 scroll commands; any terminating run stops at the first
consecutive repeat and never before; and a height sequence without a
consecutive repeat never terminates, whatever the iteration budget. -/
theorem C7_scroll :
    (∀ f : Nat, scroll_to_load_all seqHeights (f + 2) = some 2) ∧
    (∀ (h : Nat → Nat) (fuel n : Nat), scroll_to_load_all h fuel = some n →
      1 ≤ n ∧ h n = h (n - 1) ∧ ∀ m, 1 ≤ m → m < n → h m ≠ h (m - 1)) ∧
    (∀ h : Nat → Nat, (∀ n, h (n + 1) ≠ h n) →
      ∀ fuel, scroll_to_load_all h fuel = none) := by
  refine ⟨?_, ?_, ?_⟩
  · intro f
    unfold scroll_to_load_all
    rw [show f + 2 = (f + 1) + 1 from rfl, scrollSteps,
      if_neg (by decide : ¬seqHeights (0 + 1) = seqHeights 0), scrollSteps,
      if_pos (by decide : seqHeights (0 + 1 + 1) = seqHeights (0 + 1))]
  · intro h fuel n hs
    obtain ⟨h1, h2, h3⟩ := scrollSteps_spec h fuel 0 n hs
    exact ⟨h1, h2, fun m hm1 hm2 => h3 m hm1 hm2⟩
  · intro h hg fuel
    exact scrollSteps_diverge h hg fuel 0

/-- Witness for C7: two scrolls stabilise the 100, 300, 300 sequence, that
run indeed ends on a repeated measurement, and a strictly growing page never
stabilises within five iterations. -/
theorem C7_scroll_witness :
    scroll_to_load_all seqHeights 2 = some 2 ∧
    seqHeights 2 = seqHeights 1 ∧
    scroll_to_load_all (fun n => n) 5 = none := by
  have h1 := C7_scroll.1 0
  have h2 := (C7_scroll.2.1 seqHeights 2 2 h1).2.1
  exact ⟨h1, h2, C7_scroll.2.2 (fun n => n) (fun n => Nat.succ_ne_self n) 5⟩

/-- C8: the category walker's catalog is the concatenation of the
per-category record lists in which a failing category contributes nothing,
and deleting a failing category from the target list leaves the catalog
unchanged — one category's failure never blocks the others' records and
nothing is retried. -/
theorem C8_isolation :
    (∀ (cats : List String) (f : String → Except String (List Product)),
      runCategories cats f = (cats.map (fun c => exceptRecords (f c))).flatten) ∧
    (∀ (cats1 cats2 : List String) (c : String)
      (f : String → Except String (List Product)) (e : String),
      f c = Except.error e →
      runCategories (cats1 ++ c :: cats2) f = runCategories (cats1 ++ cats2) f) := by
  refine ⟨runCategories_eq, ?_⟩
  intro cats1 cats2 c f e hf
  rw [runCategories_eq, runCategories_eq]
  simp [hf, exceptRecords]

/-- Witness for C8: with the pre-rolls category timing out, the walker's
output equals the run without that category and still carries both other
categories' records. -/
theorem C8_isolation_witness :
    runCategories ["FLOWER", "PRE-ROLLS", "VAPORIZERS"] demoScrape
      = runCategories ["FLOWER", "VAPORIZERS"] demoScrape ∧
    runCategories ["FLOWER", "PRE-ROLLS", "VAPORIZERS"] demoScrape
      = [prodA, prodB, prodA2] :=
  ⟨C8_isolation.2 ["FLOWER"] ["VAPORIZERS"] "PRE-ROLLS" demoScrape
      "Timeout 20000ms exceeded" rfl, by decide⟩

/-- C9: a price-tagged element standardising to the zero string is not
treated as evidence: the loop continues past it unchanged except for the
running price resetting to the zero string, and when every element
standardises to zero the extractor still falls through to the whole-text
fallback — shown generally and on cards where a zero element precedes a
nonzero element or a text-only price. -/
theorem C9_zero_skipped :
    (∀ (p : String) (el : PriceEl) (rest : List PriceEl) (v : List Char),
      elMatch el = some v → formatVal v = "$0.00" →
      priceLoop p (el :: rest) = priceLoop "$0.00" rest) ∧
    (∀ card : Card,
      (∀ el ∈ card.price_elements, ∀ v, elMatch el = some v →
        formatVal v = "$0.00") →
      extractPrice card =
        (match fallbackPrice card.full_text with
         | some q => q
         | none => "$0.00")) ∧
    extractPrice zeroThenThirtyCard = "$30.00" ∧
    extractPrice zeroElementCard = "$12.00" := by
  refine ⟨?_, extractPrice_all_zero, by decide, by decide⟩
  intro p el rest v hm hz
  rw [priceLoop, hm]
  show (if formatVal v ≠ "$0.00" then (formatVal v, true)
        else priceLoop (formatVal v) rest) = priceLoop "$0.00" rest
  rw [if_neg (not_not_intro hz), hz]

/-- Witness for C9: the zero element is skipped in the loop, and the
all-zero card's price comes from the whole-text fallback. -/
theorem C9_zero_skipped_witness :
    priceLoop "$0.00" [⟨"$0.00", "discount-badge"⟩, ⟨"$30", "price-tag"⟩]
      = priceLoop "$0.00" [⟨"$30", "price-tag"⟩] ∧
    extractPrice zeroElementCard
      = (match fallbackPrice zeroElementCard.full_text with
         | some q => q
         | none => "$0.00") := by
  refine ⟨C9_zero_skipped.1 "$0.00" ⟨"$0.00", "discount-badge"⟩
      [⟨"$30", "price-tag"⟩] ("0.00".data) (by decide) (by decide), ?_⟩
  refine C9_zero_skipped.2.1 zeroElementCard ?_
  intro el hel v hv
  have hel2 : el = (⟨"$0.00", "discount-badge"⟩ : PriceEl) := by
    simpa [zeroElementCard] using hel
  subst hel2
  have hev : elMatch (⟨"$0.00", "discount-badge"⟩ : PriceEl)
      = some ("0.00".data) := by decide
  rw [hev] at hv
  injection hv with hv2
  rw [← hv2]
  decide

/-- C10: price standardisation truncates fractions beyond two digits,
right-pads one-digit fractions with a zero, and appends `.00` to dotless
values — as general facts about the standardiser and end-to-end through the
extractor on `$45.999`, `$45.5` and `$45`. -/
theorem C10_standardise :
    (∀ d e : List Char, ('.' : Char) ∉ d → 2 ≤ e.length →
      formatVal (d ++ '.' :: e) = ⟨'$' :: (d ++ '.' :: e.take 2)⟩) ∧
    (∀ (d : List Char) (a : Char), ('.' : Char) ∉ d →
      formatVal (d ++ ['.', a]) = ⟨'$' :: (d ++ ['.', a, '0'])⟩) ∧
    (∀ d : List Char, ('.' : Char) ∉ d →
      formatVal d = ⟨'$' :: (d ++ ['.', '0', '0'])⟩) ∧
    extractPrice truncCard = "$45.99" ∧
    extractPrice padCard = "$45.50" ∧
    extractPrice wholeCard = "$45.00" := by
  refine ⟨?_, ?_, ?_, by decide, by decide, by decide⟩
  · intro d e hnm hlen
    rw [formatVal_dot (all_ne_dot_of_not_mem hnm)]
    have h2 : (e.take 2).length = 2 := by
      rw [List.length_take]
      omega
    rw [h2]
    simp
  · intro d a hnm
    rw [show (d ++ ['.', a] : List Char) = d ++ '.' :: [a] from rfl,
      formatVal_dot (all_ne_dot_of_not_mem hnm)]
    rfl
  · intro d hnm
    exact formatVal_nodot hnm

/-- Witness for C10 on the value 45.999: the fraction is truncated to two
digits, giving the digits of 45.99. -/
theorem C10_standardise_witness :
    formatVal ("45".data ++ '.' :: "999".data)
      = ⟨'$' :: ("45".data ++ '.' :: "999".data.take 2)⟩ :=
  C10_standardise.1 ("45".data) ("999".data) (by decide) (by decide)

end Showp
